import Mathlib

/-!
Shallow embedding of the RAG-Chat-Agentic-System ingestion pipeline
(downloader.py, processor.py, run_pipeline.py, db_tools.py).

JSON values are modelled by `JVal`; Python `dict.get` returning `None`
for a missing key, and JSON `null` decoding to Python `None`, are both
modelled by `Option`/`pyGet`.
-/

namespace RagPipeline

/-- A JSON value as produced by `json.loads`. -/
inductive JVal where
  | null : JVal
  | jbool : Bool → JVal
  | num : Int → JVal
  | str : String → JVal
  | arr : List JVal → JVal
  | obj : List (String × JVal) → JVal

mutual

/-- Boolean equality on JSON values. -/
def jeq : JVal → JVal → Bool
  | .null, .null => true
  | .jbool x, .jbool y => x == y
  | .num x, .num y => x == y
  | .str x, .str y => x == y
  | .arr x, .arr y => jeqList x y
  | .obj x, .obj y => jeqObj x y
  | _, _ => false

/-- Boolean equality on JSON arrays. -/
def jeqList : List JVal → List JVal → Bool
  | [], [] => true
  | a :: as, b :: bs => jeq a b && jeqList as bs
  | _, _ => false

/-- Boolean equality on JSON object field lists. -/
def jeqObj : List (String × JVal) → List (String × JVal) → Bool
  | [], [] => true
  | (k1, v1) :: as, (k2, v2) :: bs => k1 == k2 && jeq v1 v2 && jeqObj as bs
  | _, _ => false

end

mutual

theorem jeq_sound : ∀ a b, jeq a b = true → a = b
  | .null, .null, _ => rfl
  | .jbool x, .jbool y, h => by
      simp only [jeq, beq_iff_eq] at h; exact congrArg JVal.jbool h
  | .num x, .num y, h => by
      simp only [jeq, beq_iff_eq] at h; exact congrArg JVal.num h
  | .str x, .str y, h => by
      simp only [jeq, beq_iff_eq] at h; exact congrArg JVal.str h
  | .arr x, .arr y, h => congrArg JVal.arr (jeqList_sound x y h)
  | .obj x, .obj y, h => congrArg JVal.obj (jeqObj_sound x y h)

theorem jeqList_sound : ∀ x y, jeqList x y = true → x = y
  | [], [], _ => rfl
  | a :: as, b :: bs, h => by
      simp only [jeqList, Bool.and_eq_true] at h
      exact congrArg₂ List.cons (jeq_sound a b h.1) (jeqList_sound as bs h.2)

theorem jeqObj_sound : ∀ x y, jeqObj x y = true → x = y
  | [], [], _ => rfl
  | (k1, v1) :: as, (k2, v2) :: bs, h => by
      simp only [jeqObj, Bool.and_eq_true, beq_iff_eq] at h
      have hk : k1 = k2 := h.1.1
      have hv : v1 = v2 := jeq_sound v1 v2 h.1.2
      have ht : as = bs := jeqObj_sound as bs h.2
      rw [hk, hv, ht]

end

mutual

theorem jeq_refl : ∀ a, jeq a a = true
  | .null => rfl
  | .jbool x => by simp [jeq]
  | .num x => by simp [jeq]
  | .str x => by simp [jeq]
  | .arr x => jeqList_refl x
  | .obj x => jeqObj_refl x

theorem jeqList_refl : ∀ x, jeqList x x = true
  | [] => rfl
  | a :: as => by
      simp only [jeqList, Bool.and_eq_true]
      exact ⟨jeq_refl a, jeqList_refl as⟩

theorem jeqObj_refl : ∀ x, jeqObj x x = true
  | [] => rfl
  | (k, v) :: as => by
      simp [jeqObj, jeq_refl v, jeqObj_refl as]

end

instance : DecidableEq JVal := fun a b =>
  if h : jeq a b = true then isTrue (jeq_sound a b h)
  else isFalse (fun e => h (e ▸ jeq_refl a))

/-- `d.get(k)` on a Python dict decoded from a JSON object: `none` when the
key is missing. -/
def jget (o : List (String × JVal)) (k : String) : Option JVal :=
  (o.find? (fun p => p.1 = k)).map (fun p => p.2)

/-- `d.get(k)` collapsed through the fact that a JSON `null` value decodes to
Python `None`, indistinguishable from a missing key when stored in a column. -/
def pyGet (o : List (String × JVal)) (k : String) : Option JVal :=
  match jget o k with
  | some JVal.null => none
  | v => v

/-! ## Raw Snapshot Fetcher (downloader.py, `fetch_documents_for_date`) -/

/-- The dict returned by `fetch_documents_for_date`:
`\x7b"date": ..., "count": len(all_results_for_date), "results": ...\x7d`. -/
structure Snapshot where
  date : String
  count : Nat
  results : List JVal
deriving DecidableEq

/-- What one `session.get` of a page can produce, as observed by the body of
the `while` loop in `fetch_documents_for_date`:
* `fetchError`: `asyncio.TimeoutError`, `aiohttp.ClientResponseError`
  (raised by `raise_for_status`), or any other exception — all three
  `except` arms `break` identically;
* `emptyBody`: a falsy parsed body (`if not data: break`);
* `page rs tps`: a truthy JSON body, with `rs` the value of
  `data.get("results", [])` and `tps` the value of `data.get("total_pages")`
  (`none` when the key is missing; the code defaults it to `1`). -/
inductive UpResult where
  | fetchError : UpResult
  | emptyBody : UpResult
  | page (results : List JVal) (total_pages : Option Nat) : UpResult

/-- Instrumented outcome of the pagination loop: the pages requested, in
request order, and the accumulated `all_results_for_date`. -/
structure FetchTrace where
  pages : List Nat
  results : List JVal
deriving DecidableEq

/-- The pagination loop of `fetch_documents_for_date` from page `cp ≥ 2`
onwards: `tp` is the `total_pages` fixed by the first page's response (the
`if current_page == 1` update can no longer fire), `pagesAcc` the pages
requested so far and `acc` the records accumulated so far. -/
def fetchRest (u : Nat → UpResult) (tp : Nat) (cp : Nat)
    (pagesAcc : List Nat) (acc : List JVal) : FetchTrace :=
  if h : cp ≤ tp then
    match u cp with
    | .fetchError => ⟨pagesAcc ++ [cp], acc⟩
    | .emptyBody => ⟨pagesAcc ++ [cp], acc⟩
    | .page rs _ =>
      if hstop : rs.isEmpty ∨ tp ≤ cp then ⟨pagesAcc ++ [cp], acc ++ rs⟩
      else fetchRest u tp (cp + 1) (pagesAcc ++ [cp]) (acc ++ rs)
  else ⟨pagesAcc, acc⟩
termination_by tp + 1 - cp
decreasing_by simp only [not_or] at hstop; omega

/-- The whole pagination loop of `fetch_documents_for_date`, run against an
upstream `u` mapping page numbers to responses.  `current_page` starts at 1
with `total_pages` assumed 1, so the loop guard holds and page 1 is always
requested; after page 1 `total_pages` is set from the first response
(`data.get("total_pages", 1)`), the `total_pages == 0 and not results_on_page`
early break is checked, then the generic
`not results_on_page or current_page >= total_pages` break. -/
def fetchTrace (u : Nat → UpResult) : FetchTrace :=
  match u 1 with
  | .fetchError => ⟨[1], []⟩
  | .emptyBody => ⟨[1], []⟩
  | .page rs tpOpt =>
    let tp := tpOpt.getD 1
    if tp = 0 ∧ rs.isEmpty then ⟨[1], rs⟩
    else if rs.isEmpty ∨ tp ≤ 1 then ⟨[1], rs⟩
    else fetchRest u tp 2 [1] rs

/-- `fetch_documents_for_date(session, target_date_str, per_page)`: returns
`\x7b"date": target_date_str, "count": len(all_results_for_date),
"results": all_results_for_date\x7d`.  Every failure mode is caught inside
the loop, so the function is total. -/
def fetch_documents_for_date (date : String) (u : Nat → UpResult) : Snapshot :=
  ⟨date, (fetchTrace u).results.length, (fetchTrace u).results⟩

/-- The records a single page response contributes to the accumulator. -/
def resultsOf : UpResult → List JVal
  | .page rs _ => rs
  | _ => []

theorem fetchRest_spec (u : Nat → UpResult) (tp : Nat) :
    ∀ (cp : Nat) (pagesAcc : List Nat) (acc : List JVal),
      ∃ k, (fetchRest u tp cp pagesAcc acc).pages = pagesAcc ++ List.range' cp k
        ∧ (fetchRest u tp cp pagesAcc acc).results
            = acc ++ ((List.range' cp k).map (fun p => resultsOf (u p))).flatten := by
  intro cp pagesAcc acc
  by_cases h : cp ≤ tp
  · rw [fetchRest]
    simp only [h, dite_true]
    cases hu : u cp with
    | fetchError =>
        exact ⟨1, by simp [List.range'_one, hu, resultsOf]⟩
    | emptyBody =>
        exact ⟨1, by simp [List.range'_one, hu, resultsOf]⟩
    | page rs tps =>
        by_cases hstop : rs.isEmpty ∨ tp ≤ cp
        · simp only [hstop, dite_true]
          exact ⟨1, by simp [List.range'_one, hu, resultsOf]⟩
        · simp only [hstop, dite_false]
          obtain ⟨k, hp, hr⟩ := fetchRest_spec u tp (cp + 1) (pagesAcc ++ [cp]) (acc ++ rs)
          refine ⟨k + 1, ?_, ?_⟩
          · rw [hp, List.range'_succ]; simp
          · rw [hr, List.range'_succ]; simp [hu, resultsOf]
  · rw [fetchRest]
    simp only [h, dite_false]
    exact ⟨0, by simp⟩
termination_by cp => tp + 1 - cp
decreasing_by simp only [not_or] at hstop; omega

theorem fetchTrace_spec (u : Nat → UpResult) :
    ∃ k, 1 ≤ k ∧ (fetchTrace u).pages = List.range' 1 k
      ∧ (fetchTrace u).results
          = ((List.range' 1 k).map (fun p => resultsOf (u p))).flatten := by
  cases hu : u 1 with
  | fetchError => exact ⟨1, by simp [fetchTrace, hu, List.range'_one, resultsOf]⟩
  | emptyBody => exact ⟨1, by simp [fetchTrace, hu, List.range'_one, resultsOf]⟩
  | page rs tpOpt =>
    simp only [fetchTrace, hu]
    split
    · exact ⟨1, by omega, by simp [List.range'_one], by simp [List.range'_one, hu, resultsOf]⟩
    · split
      · exact ⟨1, by omega, by simp [List.range'_one], by simp [List.range'_one, hu, resultsOf]⟩
      · obtain ⟨k, hp, hr⟩ := fetchRest_spec u (tpOpt.getD 1) 2 [1] rs
        refine ⟨k + 1, by omega, ?_, ?_⟩
        · rw [hp, List.range'_succ]; simp
        · rw [hr, List.range'_succ]; simp [hu, resultsOf]

/-- Claim C1: for every date, `fetch_documents_for_date` requests pages in
strictly increasing order starting at page 1 (the requested pages always form
a contiguous run `1, 2, …, k`); if the first page reports zero total pages
together with zero results, fetching stops immediately after page 1 with no
accumulated records; and against an upstream reporting `total_pages = 3` with
1000 results on pages 1 and 2 and 400 on page 3, it returns exactly 2400
accumulated records and requests exactly pages 1, 2, 3 — no request beyond
page 3. -/
theorem c1_pagination_order_and_termination :
    (∀ u : Nat → UpResult, ∃ k, 1 ≤ k ∧ (fetchTrace u).pages = List.range' 1 k)
    ∧ (∀ u : Nat → UpResult, u 1 = UpResult.page [] (some 0) →
        (fetchTrace u).pages = [1] ∧ (fetchTrace u).results = [])
    ∧ (∀ (u : Nat → UpResult) (d : String) (r1 r2 r3 : List JVal),
        r1.length = 1000 → r2.length = 1000 → r3.length = 400 →
        u 1 = UpResult.page r1 (some 3) →
        u 2 = UpResult.page r2 (some 3) →
        u 3 = UpResult.page r3 (some 3) →
        (fetch_documents_for_date d u).count = 2400
        ∧ (fetchTrace u).pages = [1, 2, 3]) := by
  refine ⟨?_, ?_, ?_⟩
  · intro u
    obtain ⟨k, hk, hp, _⟩ := fetchTrace_spec u
    exact ⟨k, hk, hp⟩
  · intro u hu
    constructor <;> simp [fetchTrace, hu]
  · intro u d r1 r2 r3 l1 l2 l3 h1 h2 h3
    have e1 : r1.isEmpty = false := by cases r1 <;> simp_all
    have e2 : r2.isEmpty = false := by cases r2 <;> simp_all
    have e3 : r3.isEmpty = false := by cases r3 <;> simp_all
    have htr : fetchTrace u = ⟨[1, 2, 3], (r1 ++ r2) ++ r3⟩ := by
      simp [fetchTrace, h1, e1, fetchRest, h2, e2, h3, e3]
    refine ⟨?_, by rw [htr]⟩
    simp [fetch_documents_for_date, htr, l1, l2, l3]

/-- Upstream used to witness the zero-total-pages conjunct of C1. -/
def uZero : Nat → UpResult := fun _ => UpResult.page [] (some 0)

/-- Upstream used to witness the three-page conjunct of C1: 1000 records on
pages 1 and 2, 400 on page 3, `total_pages = 3` throughout. -/
def uThree : Nat → UpResult := fun p =>
  if p = 1 then UpResult.page (List.replicate 1000 (JVal.obj [])) (some 3)
  else if p = 2 then UpResult.page (List.replicate 1000 (JVal.obj [])) (some 3)
  else if p = 3 then UpResult.page (List.replicate 400 (JVal.obj [])) (some 3)
  else UpResult.fetchError

set_option maxRecDepth 8000 in
theorem c1_pagination_order_and_termination_witness :
    ((fetchTrace uZero).pages = [1] ∧ (fetchTrace uZero).results = [])
    ∧ (fetch_documents_for_date "2024-01-01" uThree).count = 2400
    ∧ (fetchTrace uThree).pages = [1, 2, 3] :=
  ⟨c1_pagination_order_and_termination.2.1 uZero rfl,
   c1_pagination_order_and_termination.2.2 uThree "2024-01-01"
     (List.replicate 1000 (JVal.obj [])) (List.replicate 1000 (JVal.obj []))
     (List.replicate 400 (JVal.obj []))
     (by simp) (by simp) (by simp) rfl rfl rfl⟩

/-- Claim C2: `fetch_documents_for_date` is total (it never raises — every
upstream behaviour, including timeout, HTTP error, malformed body or any
other error on any page, is a value of `UpResult` and is handled), its
returned snapshot's `count` equals the length of the accumulated records
list, its `date` is the requested date, and its records are exactly the
concatenation of the page results of the pages actually requested — an error
on page `n` contributes nothing (`resultsOf` of an error is `[]`) and ends
the trace, so all records accumulated from pages before `n` are kept. -/
theorem c2_fetch_never_raises_partial_snapshot (d : String) (u : Nat → UpResult) :
    (fetch_documents_for_date d u).count = (fetch_documents_for_date d u).results.length
    ∧ (fetch_documents_for_date d u).date = d
    ∧ (fetch_documents_for_date d u).results
        = ((fetchTrace u).pages.map (fun p => resultsOf (u p))).flatten := by
  refine ⟨rfl, rfl, ?_⟩
  obtain ⟨k, _, hp, hr⟩ := fetchTrace_spec u
  rw [fetch_documents_for_date, hp, hr]

/-! ## Snapshot Writer and Fetch Orchestrator (downloader.py,
`save_raw_data`, `main_downloader`) -/

/-- The raw-data area: one JSON file per date, modelled as an association
list from the date string (the file name is derived solely from it) to the
snapshot stored in the file. -/
abbrev FS : Type := List (String × Snapshot)

/-- Look a date's snapshot file up in the raw-data area. -/
def fsGet (fs : FS) (d : String) : Option Snapshot :=
  (fs.find? (fun p => p.1 = d)).map (fun p => p.2)

/-- `save_raw_data(date_str, data_for_date)`: a no-op when `data_for_date`
is falsy or its `count` is 0; otherwise writes the whole snapshot structure
to the file named after the date, overwriting any prior file for that date.
(The `except IOError` arm only logs; the write itself is modelled as
succeeding.) -/
def save_raw_data (fs : FS) (date : String) (snap? : Option Snapshot) : FS :=
  match snap? with
  | none => fs
  | some s =>
    if s.count = 0 then fs
    else if fs.any (fun p => p.1 = date) then
      fs.map (fun p => if p.1 = date then (date, s) else p)
    else fs ++ [(date, s)]

/-- The inner unit of work `fetch_and_save_for_day(date_to_process_str)` of
`main_downloader`, on its success path: fetch the date, then save. -/
def fetch_and_save_for_day (u : Nat → UpResult) (fs : FS) (d : String) : FS :=
  save_raw_data fs d (some (fetch_documents_for_date d u))

/-- How one date's unit of work behaves: it either runs against an upstream
`u` (`fetch_documents_for_date` itself never raises), or raises somewhere —
modelled as `crash`, the exception being captured by
`asyncio.gather(..., return_exceptions=True)` with no effect on the
raw-data area attributable to that unit. -/
inductive DayBehavior where
  | runs (u : Nat → UpResult) : DayBehavior
  | crash : DayBehavior

/-- One scheduled unit of `main_downloader`, as gathered with
`return_exceptions=True`: a crashing unit's exception is captured and it
contributes no write. -/
def downloaderStep (behav : String → DayBehavior) (fs : FS) (d : String) : FS :=
  match behav d with
  | .runs u => fetch_and_save_for_day u fs d
  | .crash => fs

/-- `main_downloader(days_to_fetch)`: one `fetch_and_save_for_day` unit per
date of the trailing window, all run under a single shared session and
gathered with `return_exceptions=True`.  The units touch pairwise distinct
files (one file per date), so their concurrent interleaving is modelled as
a fold over the list of window dates. -/
def main_downloader (dates : List String) (behav : String → DayBehavior) (fs : FS) : FS :=
  dates.foldl (downloaderStep behav) fs

theorem fsGet_map_update_other (fs : FS) (d d' : String) (s : Snapshot) (h : d ≠ d') :
    fsGet (fs.map (fun p => if p.1 = d' then (d', s) else p)) d = fsGet fs d := by
  have hne : ¬(d' = d) := fun e => h e.symm
  rw [fsGet, fsGet, List.find?_map]
  have hpred : ((fun p : String × Snapshot => decide (p.1 = d)) ∘
      (fun p => if p.1 = d' then (d', s) else p))
      = (fun p : String × Snapshot => decide (p.1 = d)) := by
    funext p
    by_cases hp : p.1 = d'
    · simp [Function.comp, hp, hne]
    · simp [Function.comp, hp]
  rw [hpred]
  cases hf : fs.find? (fun p => decide (p.1 = d)) with
  | none => rfl
  | some p =>
    have hp : p.1 = d := by simpa using List.find?_some hf
    simp [hp, h]

theorem fsGet_append_single_other (fs : FS) (d d' : String) (s : Snapshot) (h : d ≠ d') :
    fsGet (fs ++ [(d', s)]) d = fsGet fs d := by
  have hne : ¬(d' = d) := fun e => h e.symm
  rw [fsGet, fsGet, List.find?_append]
  cases hf : fs.find? (fun p => decide (p.1 = d)) with
  | none => simp [hne]
  | some p => simp

theorem fsGet_save_raw_data_other (fs : FS) (d d' : String) (s? : Option Snapshot)
    (h : d ≠ d') : fsGet (save_raw_data fs d' s?) d = fsGet fs d := by
  match s? with
  | none => rfl
  | some s =>
    rw [save_raw_data]
    by_cases hc : s.count = 0
    · simp [hc]
    · simp only [hc, if_false]
      by_cases ha : fs.any (fun p => p.1 = d') = true
      · simp only [ha, if_true]
        exact fsGet_map_update_other fs d d' s h
      · simp only [ha, if_false]
        exact fsGet_append_single_other fs d d' s h

theorem fsGet_save_raw_data_self (fs : FS) (d : String) (s : Snapshot)
    (h : s.count ≠ 0) : fsGet (save_raw_data fs d (some s)) d = some s := by
  rw [save_raw_data]
  simp only [h, if_false]
  by_cases ha : fs.any (fun p => p.1 = d) = true
  · simp only [ha, if_true]
    rw [fsGet, List.find?_map]
    have hpred : ((fun p : String × Snapshot => decide (p.1 = d)) ∘
        (fun p => if p.1 = d then (d, s) else p))
        = (fun p : String × Snapshot => decide (p.1 = d)) := by
      funext p
      by_cases hp : p.1 = d <;> simp [Function.comp, hp]
    rw [hpred]
    have hsome : (fs.find? (fun p => decide (p.1 = d))).isSome := by
      rw [List.find?_isSome]
      obtain ⟨p, hm, hp⟩ := List.any_eq_true.mp ha
      exact ⟨p, hm, hp⟩
    obtain ⟨p, hp⟩ := Option.isSome_iff_exists.mp hsome
    have hkey : p.1 = d := by simpa using List.find?_some hp
    rw [hp]
    simp [hkey]
  · rw [if_neg ha, fsGet, List.find?_append]
    have hfalse : (fs.any fun p => decide (p.1 = d)) = false :=
      Bool.eq_false_iff.mpr (fun e => ha e)
    have hnone : fs.find? (fun p => decide (p.1 = d)) = none := by
      rw [List.find?_eq_none]
      intro x hx
      simpa using List.any_eq_false.mp hfalse x hx
    simp [hnone]

theorem fsGet_downloaderStep_other (behav : String → DayBehavior) (fs : FS)
    (d d' : String) (h : d ≠ d') :
    fsGet (downloaderStep behav fs d') d = fsGet fs d := by
  rw [downloaderStep]
  cases behav d' with
  | runs u => exact fsGet_save_raw_data_other fs d d' _ h
  | crash => rfl

theorem fsGet_main_downloader_not_mem (dates : List String) (behav : String → DayBehavior)
    (fs : FS) (d : String) (hd : d ∉ dates) :
    fsGet (main_downloader dates behav fs) d = fsGet fs d := by
  induction dates generalizing fs with
  | nil => rfl
  | cons d' rest ih =>
    rw [main_downloader, List.foldl_cons]
    have h1 : d ∉ rest := fun hmem => hd (List.mem_cons_of_mem d' hmem)
    have h2 : d ≠ d' := fun e => hd (e ▸ List.mem_cons_self d' rest)
    calc fsGet (rest.foldl (downloaderStep behav) (downloaderStep behav fs d')) d
        = fsGet (downloaderStep behav fs d') d := ih (downloaderStep behav fs d') h1
      _ = fsGet fs d := fsGet_downloaderStep_other behav fs d d' h2

theorem fsGet_fetch_and_save_congr (u : Nat → UpResult) (fs1 fs2 : FS) (d : String)
    (h : fsGet fs1 d = fsGet fs2 d) :
    fsGet (fetch_and_save_for_day u fs1 d) d = fsGet (fetch_and_save_for_day u fs2 d) d := by
  rw [fetch_and_save_for_day, fetch_and_save_for_day]
  by_cases hc : (fetch_documents_for_date d u).count = 0
  · simp only [save_raw_data, hc, if_true]
    exact h
  · rw [fsGet_save_raw_data_self fs1 d _ hc, fsGet_save_raw_data_self fs2 d _ hc]

theorem fsGet_main_downloader_runs (dates : List String) (behav : String → DayBehavior)
    (fs : FS) (d : String) (u : Nat → UpResult) (hnd : dates.Nodup) (hmem : d ∈ dates)
    (hb : behav d = DayBehavior.runs u) :
    fsGet (main_downloader dates behav fs) d = fsGet (fetch_and_save_for_day u fs d) d := by
  induction dates generalizing fs with
  | nil => cases hmem
  | cons d' rest ih =>
    rw [main_downloader, List.foldl_cons]
    by_cases he : d = d'
    · subst he
      have hstep : downloaderStep behav fs d = fetch_and_save_for_day u fs d := by
        rw [downloaderStep, hb]
      have hnr : d ∉ rest := (List.nodup_cons.mp hnd).1
      rw [hstep]
      exact fsGet_main_downloader_not_mem rest behav _ d hnr
    · have hmem' : d ∈ rest := by
        cases hmem with
        | head => exact absurd rfl he
        | tail _ hm => exact hm
      have ihr := ih (downloaderStep behav fs d') ((List.nodup_cons.mp hnd).2) hmem'
      calc fsGet (rest.foldl (downloaderStep behav) (downloaderStep behav fs d')) d
          = fsGet (fetch_and_save_for_day u (downloaderStep behav fs d') d) d := ihr
        _ = fsGet (fetch_and_save_for_day u fs d) d :=
            fsGet_fetch_and_save_congr u _ fs d
              (fsGet_downloaderStep_other behav fs d d' he)

theorem fsGet_main_downloader_crash (dates : List String) (behav : String → DayBehavior)
    (fs : FS) (d : String) (hnd : dates.Nodup) (hmem : d ∈ dates)
    (hb : behav d = DayBehavior.crash) :
    fsGet (main_downloader dates behav fs) d = fsGet fs d := by
  induction dates generalizing fs with
  | nil => cases hmem
  | cons d' rest ih =>
    rw [main_downloader, List.foldl_cons]
    by_cases he : d = d'
    · subst he
      have hstep : downloaderStep behav fs d = fs := by rw [downloaderStep, hb]
      have hnr : d ∉ rest := (List.nodup_cons.mp hnd).1
      rw [hstep]
      exact fsGet_main_downloader_not_mem rest behav fs d hnr
    · have hmem' : d ∈ rest := by
        cases hmem with
        | head => exact absurd rfl he
        | tail _ hm => exact hm
      have ihr := ih (downloaderStep behav fs d') ((List.nodup_cons.mp hnd).2) hmem'
      calc fsGet (rest.foldl (downloaderStep behav) (downloaderStep behav fs d')) d
          = fsGet (downloaderStep behav fs d') d := ihr
        _ = fsGet fs d := fsGet_downloaderStep_other behav fs d d' he

/-- Claim C3: `save_raw_data` with a falsy (`none`) snapshot argument or a
snapshot whose `count` is 0 writes nothing — the raw-data area is returned
completely unchanged, so a date whose fetch yields zero records produces no
snapshot artifact. -/
theorem c3_zero_count_snapshot_not_saved (fs : FS) (d : String) (s? : Option Snapshot)
    (h : s? = none ∨ ∃ s, s? = some s ∧ s.count = 0) :
    save_raw_data fs d s? = fs := by
  rcases h with h | ⟨s, hs, hc⟩
  · rw [h, save_raw_data]
  · rw [hs, save_raw_data, if_pos hc]

theorem c3_zero_count_snapshot_not_saved_witness :
    save_raw_data [("2024-01-02", ⟨"2024-01-02", 1, [JVal.null]⟩)] "2024-01-01"
        (some ⟨"2024-01-01", 0, []⟩)
      = [("2024-01-02", ⟨"2024-01-02", 1, [JVal.null]⟩)]
    ∧ save_raw_data [] "2024-01-01" none = [] :=
  ⟨c3_zero_count_snapshot_not_saved _ _ _ (Or.inr ⟨_, rfl, rfl⟩),
   c3_zero_count_snapshot_not_saved _ _ _ (Or.inl rfl)⟩

/-- Claim C4: `main_downloader` runs one fetch-and-save unit per window date
and an individual unit's failure is captured (`return_exceptions=True`),
affecting neither sibling units nor the caller.  For distinct window dates:
a date whose unit runs against upstream `u` ends with exactly the raw file
its own `fetch_and_save_for_day` would produce on the initial area — no
matter what the other units do, including crashing — and a date whose unit
crashes ends with its file unchanged.  So if D2 crashes mid-pagination while
D1 and D3 succeed with records, valid snapshots for D1 and D3 still exist. -/
theorem c4_per_date_failure_isolation :
    (∀ (dates : List String) (behav : String → DayBehavior) (fs : FS) (d : String)
        (u : Nat → UpResult), dates.Nodup → d ∈ dates →
        behav d = DayBehavior.runs u →
        fsGet (main_downloader dates behav fs) d = fsGet (fetch_and_save_for_day u fs d) d)
    ∧ (∀ (dates : List String) (behav : String → DayBehavior) (fs : FS) (d : String),
        dates.Nodup → d ∈ dates → behav d = DayBehavior.crash →
        fsGet (main_downloader dates behav fs) d = fsGet fs d) :=
  ⟨fun dates behav fs d u hnd hmem hb =>
      fsGet_main_downloader_runs dates behav fs d u hnd hmem hb,
   fun dates behav fs d hnd hmem hb =>
      fsGet_main_downloader_crash dates behav fs d hnd hmem hb⟩

/-- A one-page upstream with a single record, used in the C4 witness. -/
def uOne : Nat → UpResult := fun _ => UpResult.page [JVal.str "doc"] (some 1)

/-- Witness behaviour: the middle window date crashes, the others run. -/
def behavW : String → DayBehavior := fun d =>
  if d = "2024-01-02" then DayBehavior.crash else DayBehavior.runs uOne

theorem c4_per_date_failure_isolation_witness :
    fsGet (main_downloader ["2024-01-03", "2024-01-02", "2024-01-01"] behavW [])
        "2024-01-01"
      = fsGet (fetch_and_save_for_day uOne [] "2024-01-01") "2024-01-01"
    ∧ fsGet (main_downloader ["2024-01-03", "2024-01-02", "2024-01-01"] behavW [])
        "2024-01-03"
      = fsGet (fetch_and_save_for_day uOne [] "2024-01-03") "2024-01-03"
    ∧ fsGet (main_downloader ["2024-01-03", "2024-01-02", "2024-01-01"] behavW [])
        "2024-01-02"
      = fsGet ([] : FS) "2024-01-02" :=
  ⟨c4_per_date_failure_isolation.1 _ behavW [] "2024-01-01" uOne
      (by decide) (by decide) rfl,
   c4_per_date_failure_isolation.1 _ behavW [] "2024-01-03" uOne
      (by decide) (by decide) rfl,
   c4_per_date_failure_isolation.2 _ behavW [] "2024-01-02"
      (by decide) (by decide) rfl⟩

/-! ## Record Normalizer and Upsert Writer (processor.py) -/

/-- One row of the canonical store table `latest_federal_documents`
(processor.py `CREATE_TABLE_SQL`): `document_number` is the primary key, all
other columns nullable.  Column values are the Python values bound to the
insert placeholders; `none` is SQL `NULL`. -/
structure Row where
  document_number : Option JVal
  title : Option JVal
  type : Option JVal
  abstract : Option JVal
  publication_date : Option JVal
  html_url : Option JVal
  pdf_url : Option JVal
  public_inspection_pdf_url : Option JVal
  agency_name : Option JVal
  excerpts : Option JVal
deriving DecidableEq

/-- The agency-extraction rule of `process_file_and_insert`:
`agencies_list = doc.get("agencies")`; only if that value is truthy, a list
and non-empty is its first element examined, and only if that element is a
dict is `first_agency.get("raw_name")` used. -/
def first_agency_name (doc : List (String × JVal)) : Option JVal :=
  match jget doc "agencies" with
  | some (JVal.arr (a :: _)) =>
    match a with
    | JVal.obj fields => pyGet fields "raw_name"
    | _ => none
  | _ => none

/-- The per-record tuple built by the `for doc in documents_data` loop of
`process_file_and_insert`: `doc.get(...)` for each column (missing key or
JSON null both give Python `None`), plus the extracted agency name. -/
def normalize (doc : List (String × JVal)) : Row where
  document_number := pyGet doc "document_number"
  title := pyGet doc "title"
  type := pyGet doc "type"
  abstract := pyGet doc "abstract"
  publication_date := pyGet doc "publication_date"
  html_url := pyGet doc "html_url"
  pdf_url := pyGet doc "pdf_url"
  public_inspection_pdf_url := pyGet doc "public_inspection_pdf_url"
  agency_name := first_agency_name doc
  excerpts := pyGet doc "excerpts"

/-- Whether the table already stores a row with primary key `k`. -/
def hasKey (db : List Row) (k : Option JVal) : Bool :=
  db.any (fun x => x.document_number = k)

/-- The effect of one row of the `INSERT ... ON DUPLICATE KEY UPDATE`
statement on the table: if a stored row has the same `document_number`, every
non-key field is overwritten with the new values (the key itself is
unchanged, and equal); otherwise the row is appended.  Only called on rows
whose key is non-NULL (a NULL key makes the whole statement fail first). -/
def upsertGood (db : List Row) (r : Row) : List Row :=
  if hasKey db r.document_number then
    db.map (fun x => if x.document_number = r.document_number then r else x)
  else db ++ [r]

/-- Merging a sequence of keyed rows into the table, in order. -/
def upsertSeq (db : List Row) (rows : List Row) : List Row :=
  rows.foldl upsertGood db

/-- `cur.executemany(insert_sql, documents_to_insert)`: one multi-row
`INSERT ... ON DUPLICATE KEY UPDATE` statement.  `document_number` is the
primary key, hence `NOT NULL`: a `none` key in any submitted row makes the
whole statement fail, and with `autocommit` each statement is atomic, so the
table is left unchanged.  Otherwise the rows are merged in order. -/
def upsertMany (db : List Row) (rows : List Row) : Except Unit (List Row) :=
  if rows.all (fun r => r.document_number.isSome) then
    Except.ok (upsertSeq db rows)
  else Except.error ()

/-- `isinstance(doc, dict)` for a record of the `results` array: iterating a
non-dict record makes `doc.get` raise. -/
def toObj : JVal → Option (List (String × JVal))
  | JVal.obj o => some o
  | _ => none

/-- Python truthiness of the decoded `results` value: `None`, `False`, `0`,
`""`, `[]` and `\x7b\x7d` are falsy (`if not documents_data: return 0`). -/
def resultsIsFalsy : JVal → Bool
  | JVal.null => true
  | JVal.jbool b => !b
  | JVal.num n => n == 0
  | JVal.str s => s == ""
  | JVal.arr l => l.isEmpty
  | JVal.obj o => o.isEmpty

/-- `process_file_and_insert(pool, filepath)` on a file whose parsed content
is `content?` (`none` models a read or `json.loads` failure; that, and a
non-dict top-level value making `.get` raise, are caught by the inner `try`,
returning 0).  Returns `Except.error ()` when the function itself raises
(only possible from the normalization loop, which sits outside any `try`: a
truthy non-list `results` value or a non-dict record makes iteration or
`doc.get` raise), and otherwise `Except.ok (n, db')` with `n` the returned
count and `db'` the table after the call.  An `executemany` failure is
caught, logged, and 0 is returned with the table unchanged. -/
def process_file_and_insert (db : List Row) (content? : Option JVal) :
    Except Unit (Nat × List Row) :=
  match content? with
  | none => Except.ok (0, db)
  | some j =>
    match j with
    | JVal.obj o =>
      match jget o "results" with
      | none => Except.ok (0, db)
      | some v =>
        if resultsIsFalsy v then Except.ok (0, db)
        else
          match v with
          | JVal.arr l =>
            match l.mapM toObj with
            | none => Except.error ()
            | some docs =>
              let rows := docs.map normalize
              if rows = [] then Except.ok (0, db)
              else
                match upsertMany db rows with
                | Except.error _ => Except.ok (0, db)
                | Except.ok db' => Except.ok (rows.length, db')
          | _ => Except.error ()
    | _ => Except.ok (0, db)

/-- One iteration of the `for filename in raw_files` loop of
`main_processor`: a raised `process_file_and_insert` is caught and logged
(`Critical error processing file`), the loop continues; totals accumulate
only over files with a positive returned count. -/
def processorStep (st : List Row × Nat × Nat) (f : Option JVal) : List Row × Nat × Nat :=
  match process_file_and_insert st.1 f with
  | Except.ok (n, db') => (db', st.2.1 + n, if 0 < n then st.2.2 + 1 else st.2.2)
  | Except.error _ => st

/-- `main_processor()`: ensure the table exists, then process every
discovered raw file in turn.  Result: final table,
`total_docs_processed`, `files_processed_count`. -/
def main_processor (db : List Row) (files : List (Option JVal)) :
    List Row × Nat × Nat :=
  files.foldl processorStep (db, 0, 0)

/-- Claim C5: normalization of one upstream record is total (a Lean function
on any decoded record object — every shape of every field is handled, and
the code's `doc.get`/truthiness/`isinstance` guards never raise).  If the
record's `agencies` value is a non-empty list whose first element is a dict
containing a non-null `raw_name` field, `agency_name` is that value;
with an empty `agencies` list, or no `agencies` key at all, `agency_name` is
absent; and every other missing field maps to `none`. -/
theorem c5_normalize_total_and_agency_rule :
    (∀ (doc fields : List (String × JVal)) (rest : List JVal) (v : JVal),
        jget doc "agencies" = some (JVal.arr (JVal.obj fields :: rest)) →
        pyGet fields "raw_name" = some v →
        (normalize doc).agency_name = some v)
    ∧ (∀ doc : List (String × JVal), jget doc "agencies" = some (JVal.arr []) →
        (normalize doc).agency_name = none)
    ∧ (∀ doc : List (String × JVal), jget doc "agencies" = none →
        (normalize doc).agency_name = none)
    ∧ (∀ doc : List (String × JVal),
        (jget doc "document_number" = none → (normalize doc).document_number = none)
        ∧ (jget doc "title" = none → (normalize doc).title = none)
        ∧ (jget doc "type" = none → (normalize doc).type = none)
        ∧ (jget doc "abstract" = none → (normalize doc).abstract = none)
        ∧ (jget doc "publication_date" = none → (normalize doc).publication_date = none)
        ∧ (jget doc "html_url" = none → (normalize doc).html_url = none)
        ∧ (jget doc "pdf_url" = none → (normalize doc).pdf_url = none)
        ∧ (jget doc "public_inspection_pdf_url" = none →
            (normalize doc).public_inspection_pdf_url = none)
        ∧ (jget doc "excerpts" = none → (normalize doc).excerpts = none)) := by
  refine ⟨?_, ?_, ?_, ?_⟩
  · intro doc fields rest v ha hr
    simp [normalize, first_agency_name, ha, hr]
  · intro doc ha
    simp [normalize, first_agency_name, ha]
  · intro doc ha
    simp [normalize, first_agency_name, ha]
  · intro doc
    refine ⟨?_, ?_, ?_, ?_, ?_, ?_, ?_, ?_, ?_⟩ <;>
      (intro h; simp [normalize, pyGet, h])

/-- The EPA record of the C5 acceptance example. -/
def docEPA : List (String × JVal) :=
  [("agencies", JVal.arr
      [JVal.obj [("raw_name", JVal.str "Environmental Protection Agency")],
       JVal.obj [("raw_name", JVal.str "Department of Justice")]])]

/-- The empty-agencies record of the C5 acceptance example. -/
def docNoAgency : List (String × JVal) := [("agencies", JVal.arr [])]

theorem c5_normalize_total_and_agency_rule_witness :
    (normalize docEPA).agency_name = some (JVal.str "Environmental Protection Agency")
    ∧ (normalize docNoAgency).agency_name = none
    ∧ (normalize []).title = none
    ∧ (normalize []).document_number = none :=
  ⟨c5_normalize_total_and_agency_rule.1 docEPA
      [("raw_name", JVal.str "Environmental Protection Agency")]
      [JVal.obj [("raw_name", JVal.str "Department of Justice")]]
      (JVal.str "Environmental Protection Agency") rfl rfl,
   c5_normalize_total_and_agency_rule.2.1 docNoAgency rfl,
   (c5_normalize_total_and_agency_rule.2.2.2 []).2.1 rfl,
   (c5_normalize_total_and_agency_rule.2.2.2 []).1 rfl⟩

/-- The canonical-store invariant: every stored row has a non-NULL primary
key, and keys are pairwise distinct (at most one row per `document_number`). -/
def Keyed (db : List Row) : Prop :=
  (∀ r ∈ db, r.document_number.isSome = true)
  ∧ db.Pairwise (fun a b => a.document_number ≠ b.document_number)

instance (db : List Row) : Decidable (Keyed db) := by
  rw [Keyed]; infer_instance

theorem docnum_if (r x : Row) :
    (if x.document_number = r.document_number then r else x).document_number
      = x.document_number := by
  by_cases h : x.document_number = r.document_number <;> simp [h]

theorem keyed_upsertGood (db : List Row) (r : Row)
    (hr : r.document_number.isSome = true) (h : Keyed db) :
    Keyed (upsertGood db r) := by
  rw [upsertGood]
  by_cases ha : hasKey db r.document_number = true
  · rw [if_pos ha]
    constructor
    · intro y hy
      obtain ⟨x, hx, hxy⟩ := List.mem_map.mp hy
      by_cases hxx : x.document_number = r.document_number
      · rw [if_pos hxx] at hxy; rw [← hxy]; exact hr
      · rw [if_neg hxx] at hxy; rw [← hxy]; exact h.1 x hx
    · rw [List.pairwise_map]
      exact h.2.imp (fun hab => by simpa [docnum_if] using hab)
  · rw [if_neg ha]
    have hnot : ∀ x ∈ db, ¬(x.document_number = r.document_number) := by
      intro x hx hxe
      exact ha (List.any_eq_true.mpr ⟨x, hx, by simp [hxe]⟩)
    constructor
    · intro y hy
      rcases List.mem_append.mp hy with hy | hy
      · exact h.1 y hy
      · rw [List.mem_singleton.mp hy]; exact hr
    · rw [List.pairwise_append]
      refine ⟨h.2, List.pairwise_singleton _ _, ?_⟩
      intro a hae b hbe
      rw [List.mem_singleton.mp hbe]
      exact hnot a hae

theorem keyed_upsertSeq (rows : List Row) : ∀ (db : List Row),
    (∀ r ∈ rows, r.document_number.isSome = true) → Keyed db →
    Keyed (upsertSeq db rows) := by
  induction rows with
  | nil => intro db _ h; exact h
  | cons r rest ih =>
    intro db hall h
    rw [upsertSeq, List.foldl_cons]
    exact ih (upsertGood db r)
      (fun q hq => hall q (List.mem_cons_of_mem r hq))
      (keyed_upsertGood db r (hall r (List.mem_cons_self r rest)) h)

theorem countP_key_eq_one (db : List Row) (k : Option JVal) (h : Keyed db)
    (ha : hasKey db k = true) :
    db.countP (fun x => x.document_number = k) = 1 := by
  induction db with
  | nil => simp [hasKey] at ha
  | cons x rest ih =>
    by_cases hx : x.document_number = k
    · have hrest : rest.countP (fun q => q.document_number = k) = 0 := by
        rw [List.countP_eq_zero]
        intro q hq
        have hne := (List.pairwise_cons.mp h.2).1 q hq
        simpa using fun e => hne (hx.trans e.symm)
      rw [List.countP_cons]
      simp [hx, hrest]
    · have ha' : hasKey rest k = true := by
        rcases List.any_eq_true.mp ha with ⟨q, hq, hqk⟩
        simp only [decide_eq_true_eq] at hqk
        rcases List.mem_cons.mp hq with he | hq'
        · exact absurd (he ▸ hqk) hx
        · exact List.any_eq_true.mpr ⟨q, hq', by simp [hqk]⟩
      have hk : Keyed rest :=
        ⟨fun q hq => h.1 q (List.mem_cons_of_mem x hq), (List.pairwise_cons.mp h.2).2⟩
      rw [List.countP_cons]
      simp [hx, ih hk ha']

/-- Claim C6: the canonical store holds at most one row per `document_number`
and every row's key is non-NULL; every successful upsert batch preserves
this.  A single merged row `r` whose key already exists overwrites every
non-key field (the new row `r` is stored, exactly one row carries its key,
and the table does not grow); a new key appends exactly one row; rows under
every other key are untouched. -/
theorem c6_upsert_primary_key_invariant :
    (∀ (db rows db' : List Row), Keyed db → upsertMany db rows = Except.ok db' →
        Keyed db')
    ∧ (∀ (db : List Row) (r : Row), Keyed db → r.document_number.isSome = true →
        r ∈ upsertGood db r
        ∧ (upsertGood db r).countP (fun x => x.document_number = r.document_number) = 1
        ∧ (∀ k, k ≠ r.document_number →
            (upsertGood db r).filter (fun x => x.document_number = k)
              = db.filter (fun x => x.document_number = k))
        ∧ (upsertGood db r).length
            = (if hasKey db r.document_number then db.length else db.length + 1)) := by
  constructor
  · intro db rows db' h hok
    rw [upsertMany] at hok
    by_cases hall : rows.all (fun r => r.document_number.isSome) = true
    · rw [if_pos hall] at hok
      cases hok
      exact keyed_upsertSeq rows db (by simpa [List.all_eq_true] using hall) h
    · rw [if_neg hall] at hok
      cases hok
  · intro db r h hr
    by_cases ha : hasKey db r.document_number = true
    · have hg : upsertGood db r
          = db.map (fun x => if x.document_number = r.document_number then r else x) := by
        rw [upsertGood, if_pos ha]
      refine ⟨?_, ?_, ?_, ?_⟩
      · rw [hg]
        rcases List.any_eq_true.mp ha with ⟨x, hx, hxk⟩
        refine List.mem_map.mpr ⟨x, hx, ?_⟩
        simp only [decide_eq_true_eq] at hxk
        rw [if_pos hxk]
      · rw [hg, List.countP_map]
        have hpc : ((fun x : Row => decide (x.document_number = r.document_number)) ∘
            fun x => if x.document_number = r.document_number then r else x)
            = fun x : Row => decide (x.document_number = r.document_number) := by
          funext x
          simp [Function.comp, docnum_if]
        rw [hpc]
        exact countP_key_eq_one db r.document_number h ha
      · intro k hk
        rw [hg, List.filter_map]
        have hpc : ((fun x : Row => decide (x.document_number = k)) ∘
            fun x => if x.document_number = r.document_number then r else x)
            = fun x : Row => decide (x.document_number = k) := by
          funext x
          simp [Function.comp, docnum_if]
        rw [hpc]
        have hpt : ∀ x ∈ db.filter (fun x => decide (x.document_number = k)),
            (if x.document_number = r.document_number then r else x) = x := by
          intro x hx
          have hxk : x.document_number = k := by
            simpa using List.of_mem_filter hx
          exact if_neg (fun e => hk (hxk ▸ e))
        exact (List.map_congr_left hpt).trans (by simp)
      · rw [hg, List.length_map, if_pos ha]
    · have hg : upsertGood db r = db ++ [r] := by rw [upsertGood, if_neg ha]
      have hnot : ∀ x ∈ db, ¬(x.document_number = r.document_number) := by
        intro x hx hxe
        exact ha (List.any_eq_true.mpr ⟨x, hx, by simp [hxe]⟩)
      refine ⟨?_, ?_, ?_, ?_⟩
      · rw [hg]; exact List.mem_append.mpr (Or.inr (List.mem_singleton.mpr rfl))
      · rw [hg, List.countP_append]
        have h0 : db.countP (fun x => x.document_number = r.document_number) = 0 := by
          rw [List.countP_eq_zero]
          intro q hq
          simpa using hnot q hq
        simp [h0]
      · intro k hk
        rw [hg, List.filter_append]
        have hrk : ¬(r.document_number = k) := fun e => hk e.symm
        have hnil : ([r].filter (fun x => x.document_number = k)) = [] := by
          simp [hrk]
        simp [hnil]
      · rw [hg, List.length_append, if_neg ha]; rfl

/-- Canonical row with key "X" and title "A", for the C6 witness. -/
def rowXA : Row :=
  ⟨some (JVal.str "X"), some (JVal.str "A"), none, none, none, none, none, none, none, none⟩

/-- Canonical row with key "X" and title "B", for the C6 witness. -/
def rowXB : Row :=
  ⟨some (JVal.str "X"), some (JVal.str "B"), none, none, none, none, none, none, none, none⟩

theorem c6_upsert_primary_key_invariant_witness :
    Keyed [rowXB]
    ∧ rowXB ∈ upsertGood [rowXA] rowXB
    ∧ upsertMany [] [rowXA] = Except.ok [rowXA]
    ∧ upsertMany [rowXA] [rowXB] = Except.ok [rowXB] :=
  ⟨c6_upsert_primary_key_invariant.1 [rowXA] [rowXB] [rowXB] (by decide) rfl,
   (c6_upsert_primary_key_invariant.2 [rowXA] rowXB (by decide) (by decide)).1,
   rfl, rfl⟩

/-! ### Idempotence of the per-file merge (claim C7) -/

theorem hasKey_upsertGood (db : List Row) (r : Row) (k : Option JVal) :
    hasKey (upsertGood db r) k
      = (hasKey db k || decide (r.document_number = k)) := by
  rw [upsertGood]
  by_cases ha : hasKey db r.document_number = true
  · rw [if_pos ha, hasKey, List.any_map]
    have hpc : ((fun x : Row => decide (x.document_number = k)) ∘
        fun x => if x.document_number = r.document_number then r else x)
        = fun x : Row => decide (x.document_number = k) := by
      funext x
      simp [Function.comp, docnum_if]
    rw [hpc]
    by_cases hrk : r.document_number = k
    · have : hasKey db k = true := by rw [← hrk]; exact ha
      rw [hasKey] at this
      simp [hasKey, this, hrk]
    · simp [hasKey, hrk]
  · rw [if_neg ha, hasKey, List.any_append]
    simp [hasKey]

theorem hasKey_upsertSeq_of (rows : List Row) : ∀ (db : List Row) (k : Option JVal),
    hasKey db k = true → hasKey (upsertSeq db rows) k = true := by
  induction rows with
  | nil => intro db k h; exact h
  | cons r rest ih =>
    intro db k h
    rw [upsertSeq, List.foldl_cons]
    exact ih (upsertGood db r) k (by rw [hasKey_upsertGood, h, Bool.true_or])

theorem hasKey_upsertSeq_mem (rows : List Row) : ∀ (db : List Row) (r : Row),
    r ∈ rows → hasKey (upsertSeq db rows) r.document_number = true := by
  induction rows with
  | nil => intro db r h; cases h
  | cons r0 rest ih =>
    intro db r h
    rw [upsertSeq, List.foldl_cons]
    rcases List.mem_cons.mp h with he | hm
    · subst he
      exact hasKey_upsertSeq_of rest (upsertGood db r) r.document_number
        (by rw [hasKey_upsertGood]; simp)
    · exact ih (upsertGood db r0) r hm

/-- The value the canonical store ends with for key `k` after merging a row
sequence: the last submitted row carrying `k`, or the default `x` when no
submitted row carries `k`. -/
def lastOccD (rows : List Row) (k : Option JVal) (x : Row) : Row :=
  match rows.reverse.find? (fun q => q.document_number = k) with
  | some q => q
  | none => x

theorem lastOccD_cons (r : Row) (rows : List Row) (k : Option JVal) (x : Row) :
    lastOccD (r :: rows) k x
      = lastOccD rows k (if r.document_number = k then r else x) := by
  rw [lastOccD, lastOccD, List.reverse_cons, List.find?_append]
  cases hf : rows.reverse.find? (fun q => decide (q.document_number = k)) with
  | some q => simp
  | none =>
    by_cases hr : r.document_number = k <;> simp [hr]

theorem upsertSeq_eq_map (rows : List Row) : ∀ (db : List Row),
    (∀ r ∈ rows, hasKey db r.document_number = true) →
    upsertSeq db rows = db.map (fun x => lastOccD rows x.document_number x) := by
  induction rows with
  | nil =>
    intro db _
    have : (fun x : Row => lastOccD [] x.document_number x) = fun x => x := by
      funext x; rfl
    rw [this, List.map_id']
    rfl
  | cons r rest ih =>
    intro db h
    have hr : hasKey db r.document_number = true := h r (List.mem_cons_self r rest)
    have hg : upsertGood db r
        = db.map (fun x => if x.document_number = r.document_number then r else x) := by
      rw [upsertGood, if_pos hr]
    rw [upsertSeq, List.foldl_cons, ← upsertSeq, hg]
    have hpres : ∀ q ∈ rest,
        hasKey (db.map (fun x => if x.document_number = r.document_number then r else x))
          q.document_number = true := by
      intro q hq
      rw [hasKey, List.any_map]
      have hpc : ((fun x : Row => decide (x.document_number = q.document_number)) ∘
          fun x => if x.document_number = r.document_number then r else x)
          = fun x : Row => decide (x.document_number = q.document_number) := by
        funext x
        simp [Function.comp, docnum_if]
      rw [hpc]
      exact h q (List.mem_cons_of_mem r hq)
    rw [ih _ hpres, List.map_map]
    have hfun : ((fun x : Row => lastOccD rest x.document_number x) ∘
        fun x => if x.document_number = r.document_number then r else x)
        = fun x : Row => lastOccD (r :: rest) x.document_number x := by
      funext x
      rw [Function.comp, lastOccD_cons]
      by_cases he : x.document_number = r.document_number
      · simp [he]
      · have he' : ¬(r.document_number = x.document_number) := fun e => he e.symm
        simp [he, he']
    rw [hfun]

theorem mem_upsertGood_same_key (db : List Row) (r x : Row)
    (hx : x ∈ upsertGood db r) (he : x.document_number = r.document_number) :
    x = r := by
  rw [upsertGood] at hx
  by_cases ha : hasKey db r.document_number = true
  · rw [if_pos ha] at hx
    obtain ⟨y, hy, hey⟩ := List.mem_map.mp hx
    by_cases hyk : y.document_number = r.document_number
    · rw [if_pos hyk] at hey; exact hey.symm
    · rw [if_neg hyk] at hey
      exact absurd (hey ▸ he) hyk
  · rw [if_neg ha] at hx
    rcases List.mem_append.mp hx with hx | hx
    · exact absurd (List.any_eq_true.mpr ⟨x, hx, by simp [he]⟩) ha
    · exact List.mem_singleton.mp hx

theorem mem_upsertGood_other_key (db : List Row) (r x : Row)
    (hx : x ∈ upsertGood db r) (he : x.document_number ≠ r.document_number) :
    x ∈ db := by
  rw [upsertGood] at hx
  by_cases ha : hasKey db r.document_number = true
  · rw [if_pos ha] at hx
    obtain ⟨y, hy, hey⟩ := List.mem_map.mp hx
    by_cases hyk : y.document_number = r.document_number
    · rw [if_pos hyk] at hey
      exact absurd (hey ▸ rfl : x.document_number = r.document_number) he
    · rw [if_neg hyk] at hey
      exact hey ▸ hy
  · rw [if_neg ha] at hx
    rcases List.mem_append.mp hx with hx | hx
    · exact hx
    · exact absurd ((List.mem_singleton.mp hx) ▸ rfl : x.document_number = r.document_number) he

theorem mem_db_of_mem_upsertSeq (rows : List Row) : ∀ (db : List Row) (x : Row),
    x ∈ upsertSeq db rows → (∀ r ∈ rows, x.document_number ≠ r.document_number) →
    x ∈ db := by
  induction rows with
  | nil => intro db x hx _; exact hx
  | cons r rest ih =>
    intro db x hx hk
    have hx' : x ∈ upsertGood db r :=
      ih (upsertGood db r) x (by rwa [upsertSeq, List.foldl_cons] at hx)
        (fun q hq => hk q (List.mem_cons_of_mem r hq))
    exact mem_upsertGood_other_key db r x hx' (hk r (List.mem_cons_self r rest))

theorem lastOccD_fix (rows : List Row) : ∀ (db : List Row) (x : Row),
    x ∈ upsertSeq db rows → lastOccD rows x.document_number x = x := by
  induction rows with
  | nil => intro db x _; rfl
  | cons r rest ih =>
    intro db x hx
    rw [upsertSeq, List.foldl_cons, ← upsertSeq] at hx
    rw [lastOccD_cons]
    by_cases he : r.document_number = x.document_number
    · rw [if_pos he]
      cases hf : rest.reverse.find? (fun q => decide (q.document_number = x.document_number)) with
      | some q =>
        have h1 : lastOccD rest x.document_number r = lastOccD rest x.document_number x := by
          rw [lastOccD, lastOccD, hf]
        rw [h1]
        exact ih _ x hx
      | none =>
        have hval : lastOccD rest x.document_number r = r := by
          rw [lastOccD, hf]
        rw [hval]
        have hkeys : ∀ q ∈ rest, x.document_number ≠ q.document_number := by
          intro q hq hqe
          have hqm : q ∈ rest.reverse := List.mem_reverse.mpr hq
          have := List.find?_eq_none.mp hf q hqm
          simp only [decide_eq_true_eq] at this
          exact this hqe.symm
        have hxg : x ∈ upsertGood db r := mem_db_of_mem_upsertSeq rest (upsertGood db r) x hx hkeys
        exact (mem_upsertGood_same_key db r x hxg he.symm).symm
    · rw [if_neg he]
      exact ih _ x hx

theorem upsertSeq_idem (db : List Row) (rows : List Row) :
    upsertSeq (upsertSeq db rows) rows = upsertSeq db rows := by
  have hpres : ∀ r ∈ rows, hasKey (upsertSeq db rows) r.document_number = true :=
    fun r hr => hasKey_upsertSeq_mem rows db r hr
  rw [upsertSeq_eq_map rows (upsertSeq db rows) hpres]
  have hpt : ∀ x ∈ upsertSeq db rows,
      lastOccD rows x.document_number x = x :=
    fun x hx => lastOccD_fix rows db x hx
  exact (List.map_congr_left hpt).trans (by simp)

/-- The row batch a file effectively contributes to the canonical store:
empty whenever the file is skipped, raises, or its one merge statement
fails; otherwise the normalized rows of its `results` array.  Depends only
on the file content, never on the current table. -/
def goodRows (f : Option JVal) : List Row :=
  match f with
  | some (JVal.obj o) =>
    match jget o "results" with
    | some (JVal.arr l) =>
      if resultsIsFalsy (JVal.arr l) then []
      else
        match l.mapM toObj with
        | some docs =>
          if (docs.map normalize).all (fun r => r.document_number.isSome) then
            docs.map normalize
          else []
        | none => []
    | _ => []
  | _ => []

theorem pfi_cases (db : List Row) (f : Option JVal) :
    (process_file_and_insert db f = Except.error () ∧ goodRows f = [])
    ∨ (∃ n, process_file_and_insert db f = Except.ok (n, upsertSeq db (goodRows f))) := by
  cases f with
  | none => exact Or.inr ⟨0, rfl⟩
  | some j =>
    cases j with
    | obj o =>
      cases hres : jget o "results" with
      | none =>
        exact Or.inr ⟨0, by simp [process_file_and_insert, goodRows, hres, upsertSeq]⟩
      | some v =>
        cases v with
        | arr l =>
          by_cases hf : resultsIsFalsy (JVal.arr l) = true
          · exact Or.inr ⟨0, by simp [process_file_and_insert, goodRows, hres, hf, upsertSeq]⟩
          · cases hm : l.mapM toObj with
            | none =>
              have hm' : List.mapM.loop toObj l [] = none := by
                simpa [List.mapM] using hm
              refine Or.inl ⟨?_, ?_⟩ <;>
                simp [process_file_and_insert, goodRows, hres, hf, hm']
            | some docs =>
              have hm' : List.mapM.loop toObj l [] = some docs := by
                simpa [List.mapM] using hm
              by_cases hall :
                  (docs.map normalize).all (fun r => r.document_number.isSome) = true
              · have hall' : ∀ a ∈ docs, (normalize a).document_number.isSome = true := by
                  simpa using hall
                by_cases hrows : docs = []
                · exact Or.inr ⟨0, by
                    simp [process_file_and_insert, goodRows, hres, hf, hm', hall', hrows,
                      upsertSeq]⟩
                · refine Or.inr ⟨docs.length, ?_⟩
                  simp [process_file_and_insert, goodRows, hres, hf, hm, hm', hrows,
                    upsertMany]
                  rw [if_pos hall', if_pos hall']
              · have hall' : ¬(∀ a ∈ docs, (normalize a).document_number.isSome = true) := by
                  simpa using hall
                have hrows : ¬(docs = []) := by
                  intro e
                  subst e
                  simp at hall
                refine Or.inr ⟨0, ?_⟩
                simp [process_file_and_insert, goodRows, hres, hf, hm, hm', hrows,
                  upsertMany]
                rw [if_neg hall', if_neg hall']
                simp [upsertSeq]
        | null =>
          exact Or.inr ⟨0, by simp [process_file_and_insert, goodRows, hres,
            resultsIsFalsy, upsertSeq]⟩
        | jbool b =>
          cases b with
          | false =>
            exact Or.inr ⟨0, by simp [process_file_and_insert, goodRows, hres,
              resultsIsFalsy, upsertSeq]⟩
          | true =>
            refine Or.inl ⟨?_, ?_⟩ <;>
              simp [process_file_and_insert, goodRows, hres, resultsIsFalsy]
        | num n =>
          by_cases hn : n = 0
          · exact Or.inr ⟨0, by simp [process_file_and_insert, goodRows, hres,
              resultsIsFalsy, hn, upsertSeq]⟩
          · refine Or.inl ⟨?_, ?_⟩ <;>
              simp [process_file_and_insert, goodRows, hres, resultsIsFalsy, hn]
        | str s =>
          by_cases hs : s = ""
          · exact Or.inr ⟨0, by simp [process_file_and_insert, goodRows, hres,
              resultsIsFalsy, hs, upsertSeq]⟩
          · refine Or.inl ⟨?_, ?_⟩ <;>
              simp [process_file_and_insert, goodRows, hres, resultsIsFalsy, hs]
        | obj o2 =>
          by_cases ho : o2.isEmpty = true
          · exact Or.inr ⟨0, by simp [process_file_and_insert, goodRows, hres,
              resultsIsFalsy, ho, upsertSeq]⟩
          · refine Or.inl ⟨?_, ?_⟩ <;>
              simp [process_file_and_insert, goodRows, hres, resultsIsFalsy, ho]
    | null => exact Or.inr ⟨0, rfl⟩
    | jbool b => exact Or.inr ⟨0, rfl⟩
    | num n => exact Or.inr ⟨0, rfl⟩
    | str s => exact Or.inr ⟨0, rfl⟩
    | arr l => exact Or.inr ⟨0, rfl⟩

theorem processorStep_db (st : List Row × Nat × Nat) (f : Option JVal) :
    (processorStep st f).1 = upsertSeq st.1 (goodRows f) := by
  rcases pfi_cases st.1 f with ⟨herr, hnil⟩ | ⟨n, hok⟩
  · simp [processorStep, herr, hnil, upsertSeq]
  · simp [processorStep, hok]

theorem foldl_processorStep_db (files : List (Option JVal)) :
    ∀ (st : List Row × Nat × Nat),
      (files.foldl processorStep st).1 = upsertSeq st.1 ((files.map goodRows).flatten) := by
  induction files with
  | nil => intro st; simp [upsertSeq]
  | cons f rest ih =>
    intro st
    rw [List.foldl_cons, ih (processorStep st f), processorStep_db,
      List.map_cons, List.flatten_cons, upsertSeq, upsertSeq, upsertSeq,
      List.foldl_append]

theorem main_processor_db (db : List Row) (files : List (Option JVal)) :
    (main_processor db files).1 = upsertSeq db ((files.map goodRows).flatten) :=
  foldl_processorStep_db files (db, 0, 0)

/-- Claim C7: running the File-Set Processor a second time over the same
unchanged raw snapshot files leaves the canonical store exactly as the first
run left it — each file's contributed batch is independent of the current
table contents, and replaying the whole merged row sequence is the identity
on the already-merged table (same rows, same order, same field values). -/
theorem c7_file_set_processor_idempotent (db : List Row) (files : List (Option JVal)) :
    (main_processor (main_processor db files).1 files).1 = (main_processor db files).1 := by
  rw [main_processor_db (main_processor db files).1 files, main_processor_db db files]
  exact upsertSeq_idem db ((files.map goodRows).flatten)

/-- Claim C10: `process_file_and_insert` does not filter out records lacking
a document identifier — the whole `results` array is normalized into one
batch, a record with no `document_number` contributing a row with key `none`
(SQL NULL).  The store rejects that row (`document_number` is the primary
key, hence NOT NULL), which fails the single merge statement for the entire
file: the function returns 0 and the table is unchanged, so every record of
that file is discarded for that run. -/
theorem c10_null_key_row_discards_whole_file
    (db : List Row) (o : List (String × JVal)) (l : List JVal)
    (docs : List (List (String × JVal)))
    (hres : jget o "results" = some (JVal.arr l)) (hl : l ≠ [])
    (hm : l.mapM toObj = some docs)
    (hex : ∃ d ∈ docs, (normalize d).document_number = none) :
    upsertMany db (docs.map normalize) = Except.error ()
    ∧ process_file_and_insert db (some (JVal.obj o)) = Except.ok (0, db) := by
  have hm' : List.mapM.loop toObj l [] = some docs := by
    simpa [List.mapM] using hm
  have hall : ¬(∀ a ∈ docs, (normalize a).document_number.isSome = true) := by
    rcases hex with ⟨d, hd, hdn⟩
    intro hforall
    have hds := hforall d hd
    rw [hdn] at hds
    simp at hds
  have hallB : ((docs.map normalize).all (fun r => r.document_number.isSome)) ≠ true := by
    intro htrue
    rcases hex with ⟨d, hd, hdn⟩
    have := List.all_eq_true.mp htrue (normalize d) (List.mem_map.mpr ⟨d, hd, rfl⟩)
    rw [hdn] at this
    simp at this
  have hfalsy : resultsIsFalsy (JVal.arr l) = false := by
    cases l with
    | nil => exact absurd rfl hl
    | cons a as => rfl
  have hrows : ¬(docs = []) := by
    intro e
    subst e
    cases l with
    | nil => exact hl rfl
    | cons x xs =>
      rw [List.mapM_cons] at hm
      cases ho : toObj x with
      | none => rw [ho] at hm; simp at hm
      | some y =>
        rw [ho] at hm
        cases hxs : xs.mapM toObj with
        | none => rw [hxs] at hm; simp at hm
        | some ys => rw [hxs] at hm; simp at hm
  constructor
  · rw [upsertMany, if_neg hallB]
  · simp [process_file_and_insert, hres, hfalsy, hm', hrows, upsertMany]
    rw [if_neg hall]

/-- The single-record file of the C10 witness: `results` holds one record
with a title but no `document_number`. -/
def docNoKey : List (String × JVal) := [("title", JVal.str "A")]

theorem c10_null_key_row_discards_whole_file_witness :
    upsertMany [] ([docNoKey].map normalize) = Except.error ()
    ∧ process_file_and_insert []
        (some (JVal.obj [("results", JVal.arr [JVal.obj docNoKey])]))
      = Except.ok (0, []) :=
  c10_null_key_row_discards_whole_file [] [("results", JVal.arr [JVal.obj docNoKey])]
    [JVal.obj docNoKey] [docNoKey] rfl (by simp) rfl
    ⟨docNoKey, List.mem_singleton.mpr rfl, rfl⟩

/-! ## Pipeline Orchestrator (run_pipeline.py, `run_full_pipeline`) -/

/-- The JSON object `save_raw_data` serializes for one date
(`\x7b"date", "count", "results"\x7d`), as `main_processor` re-reads it. -/
def snapshotToJson (s : Snapshot) : JVal :=
  JVal.obj [("date", JVal.str s.date), ("count", JVal.num (Int.ofNat s.count)),
    ("results", JVal.arr s.results)]

/-- The observable state the two phases act on: the raw-data area and the
canonical store table. -/
structure World where
  fs : FS
  db : List Row

/-- The fetch phase as `run_full_pipeline` awaits it: `main_downloader()`.
`setupFails` models a setup-level exception (e.g. the shared
`aiohttp.ClientSession` cannot be opened) escaping `main_downloader` before
any unit has run; per-unit failures are captured inside (`DayBehavior.crash`)
and never escape. -/
def downloader_phase (setupFails : Bool) (dates : List String)
    (behav : String → DayBehavior) (w : World) : Except Unit World :=
  if setupFails then Except.error ()
  else Except.ok ⟨main_downloader dates behav w.fs, w.db⟩

/-- The process phase as `run_full_pipeline` awaits it: `main_processor()`,
reading every raw snapshot file present.  `setupFails` models a setup-level
exception (`get_db_pool` or `create_table_if_not_exists` raising); per-file
failures are caught inside the loop and never escape. -/
def processor_phase (setupFails : Bool) (w : World) : Except Unit World :=
  if setupFails then Except.error ()
  else Except.ok
    ⟨w.fs, (main_processor w.db (w.fs.map (fun p => some (snapshotToJson p.2)))).1⟩

/-- `run_full_pipeline()`: await the downloader; if it raises, log and
return (the processor is never started).  Otherwise await the processor; if
it raises, log and return.  Neither exception is re-raised. -/
def run_full_pipeline (dl : World → Except Unit World)
    (pr : World → Except Unit World) (w : World) : World :=
  match dl w with
  | Except.error _ => w
  | Except.ok w1 =>
    match pr w1 with
    | Except.error _ => w1
    | Except.ok w2 => w2

/-- Claim C8: the fetch phase runs to completion strictly before the process
phase begins, with no interleaving — the process phase consumes exactly the
raw-data area the completed fetch phase produced.  If the fetch phase raises
at the top level the run aborts with the world untouched and the process
phase never starts (the store is unchanged); if the process phase raises at
the top level the run aborts after the fetch phase's effect.  In every case
`run_full_pipeline` returns a value instead of re-raising. -/
theorem c8_fetch_completes_before_process_starts
    (dlFail prFail : Bool) (dates : List String) (behav : String → DayBehavior)
    (w : World) :
    (dlFail = true →
      run_full_pipeline (downloader_phase dlFail dates behav) (processor_phase prFail) w
        = w)
    ∧ (dlFail = false → prFail = true →
      run_full_pipeline (downloader_phase dlFail dates behav) (processor_phase prFail) w
        = ⟨main_downloader dates behav w.fs, w.db⟩)
    ∧ (dlFail = false → prFail = false →
      run_full_pipeline (downloader_phase dlFail dates behav) (processor_phase prFail) w
        = ⟨main_downloader dates behav w.fs,
           (main_processor w.db ((main_downloader dates behav w.fs).map
              (fun p => some (snapshotToJson p.2)))).1⟩) := by
  refine ⟨?_, ?_, ?_⟩
  · intro h
    subst h
    simp [run_full_pipeline, downloader_phase]
  · intro h1 h2
    subst h1
    subst h2
    simp [run_full_pipeline, downloader_phase, processor_phase]
  · intro h1 h2
    subst h1
    subst h2
    simp [run_full_pipeline, downloader_phase, processor_phase]

theorem c8_fetch_completes_before_process_starts_witness :
    run_full_pipeline (downloader_phase true ["2024-01-01"] behavW)
        (processor_phase false) ⟨[], []⟩
      = ⟨[], []⟩
    ∧ run_full_pipeline (downloader_phase false ["2024-01-01"] behavW)
        (processor_phase true) ⟨[], []⟩
      = ⟨main_downloader ["2024-01-01"] behavW [], []⟩
    ∧ run_full_pipeline (downloader_phase false ["2024-01-01"] behavW)
        (processor_phase false) ⟨[], []⟩
      = ⟨main_downloader ["2024-01-01"] behavW [],
         (main_processor [] ((main_downloader ["2024-01-01"] behavW []).map
            (fun p => some (snapshotToJson p.2)))).1⟩ :=
  ⟨(c8_fetch_completes_before_process_starts true false ["2024-01-01"] behavW
      ⟨[], []⟩).1 rfl,
   (c8_fetch_completes_before_process_starts false true ["2024-01-01"] behavW
      ⟨[], []⟩).2.1 rfl rfl,
   (c8_fetch_completes_before_process_starts false false ["2024-01-01"] behavW
      ⟨[], []⟩).2.2 rfl rfl⟩

/-! ## Search capability (db_tools.py, `search_federal_documents`) -/

/-- processor.py: `TABLE_NAME = "latest_federal_documents"` — the table the
Upsert Writer creates and populates. -/
def TABLE_NAME : String := "latest_federal_documents"

/-- The table named in the `FROM` clause of the query built by
`search_federal_documents` (db_tools.py). -/
def search_query_table : String := "federal_documents"

/-- SQL `column LIKE %pat%` on a nullable text column: substring match;
`NULL` never matches. -/
def likeMatch (pat : String) (v : Option JVal) : Bool :=
  match v with
  | some (JVal.str s) => decide (pat.toList.IsInfix s.toList)
  | _ => false

/-- The `WHERE` clause assembled from the optional filters (`none` models a
falsy argument, for which no condition is appended). -/
def rowMatches (keywords document_type start_date end_date agency : Option String)
    (r : Row) : Bool :=
  (match keywords with
   | some k => likeMatch k r.title || likeMatch k r.abstract || likeMatch k r.excerpts
   | none => true)
  && (match document_type with
      | some t => decide (r.type = some (JVal.str t))
      | none => true)
  && (match start_date with
      | some sd =>
        match r.publication_date with
        | some (JVal.str p) => decide (sd ≤ p)
        | _ => false
      | none => true)
  && (match end_date with
      | some ed =>
        match r.publication_date with
        | some (JVal.str p) => decide (p ≤ ed)
        | _ => false
      | none => true)
  && (match agency with
      | some a => likeMatch a r.agency_name
      | none => true)

/-- Sort key for `ORDER BY publication_date DESC` (ISO dates compare
lexicographically; `NULL` sorts last under `DESC`). -/
def pubDateKey (r : Row) : String :=
  match r.publication_date with
  | some (JVal.str p) => p
  | _ => ""

/-- Insertion step of the descending sort. -/
def insertDesc (r : Row) : List Row → List Row
  | [] => [r]
  | x :: xs => if pubDateKey x ≤ pubDateKey r then r :: x :: xs else x :: insertDesc r xs

/-- `ORDER BY publication_date DESC`. -/
def sortDesc : List Row → List Row
  | [] => []
  | r :: rs => insertDesc r (sortDesc rs)

/-- The seven columns of the `SELECT` list. -/
structure SearchRow where
  document_number : Option JVal
  title : Option JVal
  type : Option JVal
  abstract : Option JVal
  publication_date : Option JVal
  html_url : Option JVal
  agency_name : Option JVal
deriving DecidableEq

/-- Project a stored row onto the `SELECT` list. -/
def selectColumns (r : Row) : SearchRow :=
  ⟨r.document_number, r.title, r.type, r.abstract, r.publication_date,
   r.html_url, r.agency_name⟩

/-- The three shapes `search_federal_documents` can return: a document list,
the `\x7b"message": "No documents found matching your criteria."\x7d` marker,
or the `\x7b"error": ...\x7d` marker (also used when the query itself
fails, e.g. the named table does not exist). -/
inductive SearchOutcome where
  | docs (rows : List SearchRow) : SearchOutcome
  | noResults : SearchOutcome
  | errorMarker : SearchOutcome
deriving DecidableEq

/-- `search_federal_documents(keywords, document_type, start_date, end_date,
agency_name, limit)` against a database mapping table names to stored rows:
build the filter from the truthy arguments, query the table named in the
`FROM` clause, order by publication date descending, return at most `limit`
rows, or the no-results / error marker. -/
def search_federal_documents (tables : String → Option (List Row))
    (keywords document_type start_date end_date agency : Option String)
    (limit : Nat) : SearchOutcome :=
  match tables search_query_table with
  | none => SearchOutcome.errorMarker
  | some rows =>
    let hits := (sortDesc (rows.filter
      (rowMatches keywords document_type start_date end_date agency))).take limit
    if hits.isEmpty then SearchOutcome.noResults
    else SearchOutcome.docs (hits.map selectColumns)

/-- Claim C9 is refuted by the code: the search queries table
`federal_documents` while the Upsert Writer populates
`latest_federal_documents`.  Against a database holding exactly the table
the pipeline creates and fills — with any contents whatsoever — every
combination of filters and every limit makes `search_federal_documents`
return the error marker, never a canonical document. -/
theorem c9_search_reads_table_processor_never_writes :
    search_query_table ≠ TABLE_NAME
    ∧ ∀ (store : List Row)
        (keywords document_type start_date end_date agency : Option String)
        (limit : Nat),
        search_federal_documents (fun t => if t = TABLE_NAME then some store else none)
          keywords document_type start_date end_date agency limit
          = SearchOutcome.errorMarker := by
  constructor
  · decide
  · intro store kw dt sd ed ag lim
    have hmiss : (fun t => if t = TABLE_NAME then some store else none)
        search_query_table = (none : Option (List Row)) := by
      simp [search_query_table, TABLE_NAME]
    simp [search_federal_documents, hmiss]

end RagPipeline
